import Mathlib

/-!
# Verification of the gupiao recommendation engine specification

This file gives a shallow embedding, in Lean 4, of the scoring, parsing,
ranking, task-lifecycle and frontend-progress logic of the gupiao stock
recommendation repository, and proves (or refutes) the specification claims
about it.

Scores and percentages are modelled as rationals (`ℚ`); Python/JS strings are
Lean `String`/`List Char`; fallible operations return `Option`.  Where the
backend Python sources are not part of the repository snapshot (only their
requirement documents and bug reports are), the corresponding definitions are
explicitly marked `Modelled from the spec:`.
-/

namespace Gupiao

/-! ## Fusion scorer (spec §4.4, requirements_confidence_fusion.md §6) -/

/-- `clamp lo hi x` bounds `x` into the interval `[lo, hi]`, the
`max(lo, min(hi, x))` idiom used throughout the backend. -/
def clamp (lo hi x : ℚ) : ℚ := max lo (min hi x)

/-- Rounding to two decimal places, Python's `round(x, 2)` on the exact
rational value. -/
def round2 (x : ℚ) : ℚ := (round (x * 100) : ℤ) / 100

/-- Default fusion weight α: technical weight 0.4
(`CONF_FUSION_ALPHA`, overridable via environment). -/
def CONF_FUSION_ALPHA : ℚ := 4 / 10

/-- Modelled from the spec: `compute_fusion_score` lives in
`backend/services/confidence_fusion.py`, which is not part of the repository
snapshot; the rules are spec §4.4 and `requirements_confidence_fusion.md` §6:
absent technical score → absent; absent AI confidence → `round(tech, 2)`;
otherwise `round(clamp(tech*alpha + ai*(1-alpha), 0, 10), 2)`. -/
def compute_fusion_score (tech_score ai_conf : Option ℚ) (alpha : ℚ) : Option ℚ :=
  match tech_score with
  | none => none
  | some t =>
    match ai_conf with
    | none => some (round2 t)
    | some a => some (round2 (clamp 0 10 (t * alpha + a * (1 - alpha))))

/-! ## Action determination (docs/bugs/20241231-buy-threshold-config.md) -/

/-- Default buy threshold, `BUY_THRESHOLD = float(os.getenv("BUY_THRESHOLD", "7.0"))`. -/
def BUY_THRESHOLD_DEFAULT : ℚ := 7

/-- Default hold threshold, `HOLD_THRESHOLD = float(os.getenv("HOLD_THRESHOLD", "4.0"))`. -/
def HOLD_THRESHOLD_DEFAULT : ℚ := 4

/-- `_determine_action` from `backend/services/streaming_engine_utils.py`
(quoted verbatim in `docs/bugs/20241231-buy-threshold-config.md`): buy when the
fusion score reaches the buy threshold, else hold when it reaches the hold
threshold, else sell.  The thresholds are environment-configurable, so they
are parameters here. -/
def determine_action (buyThreshold holdThreshold fusion_score : ℚ) : String :=
  if buyThreshold ≤ fusion_score then "buy"
  else if holdThreshold ≤ fusion_score then "hold"
  else "sell"

/-! ## Helper lemmas about rounding and clamping -/

theorem round_mono_q {x y : ℚ} (h : x ≤ y) : round x ≤ round y := by
  rw [round_eq, round_eq]
  exact Int.floor_mono (by linarith)

theorem round2_ofInt (x : ℚ) (n : ℤ) (h : x * 100 = (n : ℚ)) : round2 x = n / 100 := by
  unfold round2
  rw [h, round_intCast]

theorem round2_bounds {x : ℚ} (h0 : 0 ≤ x) (h1 : x ≤ 10) : 0 ≤ round2 x ∧ round2 x ≤ 10 := by
  have hlo : (0 : ℤ) ≤ round (x * 100) := by
    have := round_mono_q (show (0 : ℚ) ≤ x * 100 by linarith)
    simpa using this
  have hhi : round (x * 100) ≤ 1000 := by
    have := round_mono_q (show x * 100 ≤ ((1000 : ℤ) : ℚ) by push_cast; linarith)
    rwa [round_intCast] at this
  constructor
  · unfold round2
    positivity
  · unfold round2
    rw [div_le_iff₀ (by norm_num)]
    calc ((round (x * 100) : ℤ) : ℚ) ≤ ((1000 : ℤ) : ℚ) := by exact_mod_cast hhi
    _ = 10 * 100 := by norm_num

theorem clamp_mem (x : ℚ) : 0 ≤ clamp 0 10 x ∧ clamp 0 10 x ≤ 10 := by
  unfold clamp
  refine ⟨le_max_left _ _, max_le (by norm_num) (min_le_left _ _)⟩

theorem clamp_eq_self {x : ℚ} (h0 : 0 ≤ x) (h1 : x ≤ 10) : clamp 0 10 x = x := by
  unfold clamp
  rw [min_eq_right h1, max_eq_right h0]

/-- C1: the fusion scorer returns absent when the technical score is absent,
`round(tech, 2)` when the AI confidence is absent, and otherwise
`round(clamp(tech*alpha + ai*(1-alpha), 0, 10), 2)` with default alpha 0.4;
in particular `Fuse(7.5, null, 0.4) = 7.5`, `Fuse(7.5, 8, 0.4) = 7.80`,
`Fuse(null, 8, 0.4) = null`, `Fuse(10, 10, alpha) = 10` for every alpha, and
the result lies in `[0, 10]` whenever the present inputs lie in `[0, 10]`. -/
theorem fusion_scorer_contract :
    (∀ a alpha, compute_fusion_score none a alpha = none) ∧
    (∀ t alpha, compute_fusion_score (some t) none alpha = some (round2 t)) ∧
    (∀ t a alpha, compute_fusion_score (some t) (some a) alpha
        = some (round2 (clamp 0 10 (t * alpha + a * (1 - alpha))))) ∧
    CONF_FUSION_ALPHA = 4 / 10 ∧
    compute_fusion_score (some (75 / 10)) none CONF_FUSION_ALPHA = some (75 / 10) ∧
    compute_fusion_score (some (75 / 10)) (some 8) CONF_FUSION_ALPHA = some (78 / 10) ∧
    compute_fusion_score none (some 8) CONF_FUSION_ALPHA = none ∧
    (∀ alpha, compute_fusion_score (some 10) (some 10) alpha = some 10) ∧
    (∀ t a alpha r, 0 ≤ t → t ≤ 10 → 0 ≤ a → a ≤ 10 →
      compute_fusion_score (some t) (some a) alpha = some r → 0 ≤ r ∧ r ≤ 10) ∧
    (∀ t alpha r, 0 ≤ t → t ≤ 10 →
      compute_fusion_score (some t) none alpha = some r → 0 ≤ r ∧ r ≤ 10) := by
  refine ⟨fun a alpha => rfl, fun t alpha => rfl, fun t a alpha => rfl, rfl, ?_, ?_, rfl, ?_, ?_, ?_⟩
  · show some (round2 (75 / 10)) = some (75 / 10)
    rw [round2_ofInt (75 / 10) 750 (by norm_num)]
    norm_num
  · show some (round2 (clamp 0 10 (75 / 10 * CONF_FUSION_ALPHA + 8 * (1 - CONF_FUSION_ALPHA))))
        = some (78 / 10)
    rw [show (75 / 10 * CONF_FUSION_ALPHA + 8 * (1 - CONF_FUSION_ALPHA) : ℚ) = 78 / 10 by
        unfold CONF_FUSION_ALPHA; norm_num]
    rw [clamp_eq_self (by norm_num) (by norm_num), round2_ofInt (78 / 10) 780 (by norm_num)]
    norm_num
  · intro alpha
    show some (round2 (clamp 0 10 (10 * alpha + 10 * (1 - alpha)))) = some 10
    rw [show (10 * alpha + 10 * (1 - alpha) : ℚ) = 10 by ring]
    rw [clamp_eq_self (by norm_num) (by norm_num), round2_ofInt 10 1000 (by norm_num)]
    norm_num
  · intro t a alpha r _ _ _ _ h
    have hr : r = round2 (clamp 0 10 (t * alpha + a * (1 - alpha))) := by
      simpa [compute_fusion_score] using h.symm
    subst hr
    exact round2_bounds (clamp_mem _).1 (clamp_mem _).2
  · intro t alpha r h0 h1 h
    have hr : r = round2 t := by
      simpa [compute_fusion_score] using h.symm
    subst hr
    exact round2_bounds h0 h1

/-- Concrete instantiation of the hypotheses of `fusion_scorer_contract`:
the in-range conjuncts applied at `t = 7.5`, `a = 8`, `alpha = 0.4`. -/
theorem fusion_scorer_contract_witness : (0 : ℚ) ≤ 78 / 10 ∧ (78 / 10 : ℚ) ≤ 10 :=
  fusion_scorer_contract.2.2.2.2.2.2.2.2.1 (75 / 10) 8 CONF_FUSION_ALPHA (78 / 10)
    (by norm_num) (by norm_num) (by norm_num) (by norm_num)
    fusion_scorer_contract.2.2.2.2.2.1

/-- C6: the recommended action is buy when the fusion score reaches the buy
threshold, hold when it reaches the hold threshold but not the buy threshold,
and sell otherwise; both thresholds are parameters, defaulting to 7.0 / 4.0. -/
theorem determine_action_spec (bt ht f : ℚ) (h : ht ≤ bt) :
    (determine_action bt ht f = "buy" ↔ bt ≤ f) ∧
    (determine_action bt ht f = "hold" ↔ ht ≤ f ∧ f < bt) ∧
    (determine_action bt ht f = "sell" ↔ f < ht) ∧
    BUY_THRESHOLD_DEFAULT = 7 ∧ HOLD_THRESHOLD_DEFAULT = 4 := by
  unfold determine_action
  split_ifs with h1 h2
  · exact ⟨iff_of_true rfl h1,
      iff_of_false (by decide) (fun hx => absurd h1 (not_le.mpr hx.2)),
      iff_of_false (by decide) (not_lt.mpr (le_trans h h1)), rfl, rfl⟩
  · exact ⟨iff_of_false (by decide) h1,
      iff_of_true rfl ⟨h2, not_le.mp h1⟩,
      iff_of_false (by decide) (not_lt.mpr h2), rfl, rfl⟩
  · exact ⟨iff_of_false (by decide) h1,
      iff_of_false (by decide) (fun hx => h2 hx.1),
      iff_of_true rfl (not_le.mp h2), rfl, rfl⟩

/-- Concrete instantiation of `determine_action_spec` at the default
thresholds with fusion score 8. -/
theorem determine_action_spec_witness :
    determine_action BUY_THRESHOLD_DEFAULT HOLD_THRESHOLD_DEFAULT 8 = "buy" :=
  ((determine_action_spec BUY_THRESHOLD_DEFAULT HOLD_THRESHOLD_DEFAULT 8
    (by unfold BUY_THRESHOLD_DEFAULT HOLD_THRESHOLD_DEFAULT; norm_num)).1).mpr
    (by unfold BUY_THRESHOLD_DEFAULT; norm_num)

/-! ## AI-confidence parsing (spec §4.4, requirements_confidence_fusion.md §5)

Modelled from the spec: `parse_ai_confidence` lives in
`backend/services/confidence_fusion.py`, which is not in the repository
snapshot; its behaviour is specified by spec §4.4 ("AI confidence parsing"),
`requirements_confidence_fusion.md` §5 and the bug report in the docs
(optional ASCII/Unicode minus sign, full-width variants, first match wins,
clamp to `[0,10]`, absent — not zero — on parse failure).

The scanner works on `List Char` and first produces a purely numeric
`ParsedConf` record (sign, integer part, fractional digits); the rational
value and the clamp are applied on top of it. -/

/-- Separator characters tolerated between the keyword, the number and the
`/10` suffix: spaces, newlines, tabs, half- and full-width colons and the
ideographic space. -/
def isConfSep (c : Char) : Bool :=
  c = ' ' ∨ c = '\t' ∨ c = '\n' ∨ c = '\r' ∨ c = ':' ∨ c = '：' ∨ c = '　'

/-- Minus-sign glyphs accepted before the numeric token: ASCII `-`,
mathematical minus `−` (U+2212) and full-width `－` (U+FF0D). -/
def isMinusChar (c : Char) : Bool :=
  c = '-' ∨ c = '−' ∨ c = '－'

/-- Value of a half-width or full-width decimal digit, absent otherwise. -/
def digitVal (c : Char) : Option ℕ :=
  if '0' ≤ c ∧ c ≤ '9' then some (c.toNat - '0'.toNat)
  else if '０' ≤ c ∧ c ≤ '９' then some (c.toNat - '０'.toNat)
  else none

/-- Lower-case an ASCII letter, other characters unchanged (used for the
case-insensitive `confidence` keyword). -/
def asciiLower (c : Char) : Char :=
  if 'A' ≤ c ∧ c ≤ 'Z' then Char.ofNat (c.toNat + 32) else c

/-- Match the confidence keyword (`信心` or case-insensitive `confidence`) at
the head of the text, returning the remaining text. -/
def matchKeyword : List Char → Option (List Char)
  | '信' :: '心' :: rest => some rest
  | c0 :: c1 :: c2 :: c3 :: c4 :: c5 :: c6 :: c7 :: c8 :: c9 :: rest =>
    if [c0, c1, c2, c3, c4, c5, c6, c7, c8, c9].map asciiLower = "confidence".toList
    then some rest else none
  | _ => none

/-- Longest run of (half- or full-width) digits at the head of the text,
as a list of digit values, with the remaining text. -/
def takeDigits : List Char → List ℕ × List Char
  | [] => ([], [])
  | c :: rest =>
    match digitVal c with
    | some d =>
      match takeDigits rest with
      | (ds, r) => (d :: ds, r)
    | none => ([], c :: rest)

/-- Digit list to natural number, most significant first. -/
def digitsToNat (ds : List ℕ) : ℕ := ds.foldl (fun a d => a * 10 + d) 0

/-- Raw numeric token parsed out of the AI text: optional minus sign,
integer digits, optional decimal fraction. -/
structure ParsedConf where
  neg : Bool
  intPart : ℕ
  fracPart : ℕ
  fracLen : ℕ
deriving DecidableEq

/-- Parse `digits[.digits]` at the head of the text (also accepting the
full-width dot); fails when no leading digit is present. -/
def parseNumberAt (l : List Char) : Option (Bool → ParsedConf × List Char) :=
  match takeDigits l with
  | ([], _) => none
  | (d :: ds, rest) =>
    match rest with
    | c :: rest2 =>
      if c = '.' ∨ c = '．' then
        match takeDigits rest2 with
        | ([], _) => none
        | (f :: fs, rest3) =>
          some (fun neg =>
            (⟨neg, digitsToNat (d :: ds), digitsToNat (f :: fs), (f :: fs).length⟩, rest3))
      else some (fun neg => (⟨neg, digitsToNat (d :: ds), 0, 0⟩, c :: rest2))
    | [] => some (fun neg => (⟨neg, digitsToNat (d :: ds), 0, 0⟩, []))

/-- Try to match the whole pattern `keyword [seps] [minus] number [seps] /
[seps] 10` at the head of the text. -/
def matchConfidenceAt (l : List Char) : Option ParsedConf :=
  match matchKeyword l with
  | none => none
  | some rest =>
    let r1 := rest.dropWhile isConfSep
    let pr :=
      match r1 with
      | c :: tail => if isMinusChar c then (true, tail) else (false, r1)
      | [] => (false, r1)
    match parseNumberAt pr.2 with
    | none => none
    | some mk =>
      match mk pr.1 with
      | (v, r3) =>
        match r3.dropWhile isConfSep with
        | s :: r5 =>
          if s = '/' ∨ s = '／' then
            match r5.dropWhile isConfSep with
            | a :: b :: _ =>
              if (a = '1' ∨ a = '１') ∧ (b = '0' ∨ b = '０') then some v else none
            | _ => none
          else none
        | [] => none

/-- Scan the text left to right and return the first full pattern match. -/
def scanConfidence : List Char → Option ParsedConf
  | [] => none
  | c :: rest =>
    match matchConfidenceAt (c :: rest) with
    | some v => some v
    | none => scanConfidence rest

/-- Rational value of a raw parsed token. -/
def ratOfParsed (p : ParsedConf) : ℚ :=
  (if p.neg then -1 else 1) * ((p.intPart : ℚ) + (p.fracPart : ℚ) / (10 : ℚ) ^ p.fracLen)

/-- Modelled from the spec: `parse_ai_confidence(text)` — first match of the
confidence pattern, value clamped to `[0,10]`, absent when nothing matches
or the numeric token is not a number. -/
def parse_ai_confidence (text : String) : Option ℚ :=
  (scanConfidence text.toList).map (fun p => clamp 0 10 (ratOfParsed p))

/-- C2: the confidence parser takes the first `confidence Y/10` pattern
(Chinese or English, punctuation/width variants, optional minus sign,
optional decimal fraction), clamps the value to `[0,10]` — so `信心-1/10`
yields `0.0` — and returns absent when no pattern matches or the numeric
token is not a number, so `信心 十/10` yields absent. -/
theorem parse_ai_confidence_spec :
    parse_ai_confidence "信心 8/10" = some 8 ∧
    parse_ai_confidence "Confidence 7.5/10" = some (75 / 10) ∧
    parse_ai_confidence "信心 十/10" = none ∧
    parse_ai_confidence "信心-1/10" = some 0 ∧
    (∀ s v, parse_ai_confidence s = some v → 0 ≤ v ∧ v ≤ 10) := by
  refine ⟨?_, ?_, ?_, ?_, ?_⟩
  · unfold parse_ai_confidence
    rw [show scanConfidence "信心 8/10".toList = some ⟨false, 8, 0, 0⟩ by decide]
    simp only [Option.map_some']
    rw [show ratOfParsed ⟨false, 8, 0, 0⟩ = 8 by unfold ratOfParsed; norm_num]
    rw [clamp_eq_self (by norm_num) (by norm_num)]
  · unfold parse_ai_confidence
    rw [show scanConfidence "Confidence 7.5/10".toList = some ⟨false, 7, 5, 1⟩ by decide]
    simp only [Option.map_some']
    rw [show ratOfParsed ⟨false, 7, 5, 1⟩ = 75 / 10 by unfold ratOfParsed; norm_num]
    rw [clamp_eq_self (by norm_num) (by norm_num)]
  · unfold parse_ai_confidence
    rw [show scanConfidence "信心 十/10".toList = none by decide]
    rfl
  · unfold parse_ai_confidence
    rw [show scanConfidence "信心-1/10".toList = some ⟨true, 1, 0, 0⟩ by decide]
    simp only [Option.map_some']
    rw [show ratOfParsed ⟨true, 1, 0, 0⟩ = -1 by unfold ratOfParsed; norm_num]
    unfold clamp
    rw [min_eq_right (by norm_num : (-1 : ℚ) ≤ 10), max_eq_left (by norm_num : (-1 : ℚ) ≤ 0)]
  · intro s v h
    unfold parse_ai_confidence at h
    cases hs : scanConfidence s.toList with
    | none => rw [hs] at h; simp at h
    | some p =>
      rw [hs] at h
      simp only [Option.map_some'] at h
      rw [← Option.some.inj h]
      exact clamp_mem _

/-- Concrete instantiation of the range conjunct of
`parse_ai_confidence_spec` at the text `信心 8/10`. -/
theorem parse_ai_confidence_spec_witness : (0 : ℚ) ≤ 8 ∧ (8 : ℚ) ≤ 10 :=
  parse_ai_confidence_spec.2.2.2.2 "信心 8/10" 8 parse_ai_confidence_spec.1

/-! ## Ranking and recommendation selection (spec §4.1 Finalization) -/

/-- One per-symbol analysis result, restricted to the fields the ranking
step reads (`recommendation_results` rows in the unified task system). -/
structure RecResult where
  symbol : String
  technical_score : ℚ
  fusion_score : ℚ
deriving DecidableEq

/-- A result decorated by finalization with its dense rank and the
recommendation cutoff flag. -/
structure RankedResult where
  core : RecResult
  rank_in_task : ℕ
  is_recommended : Bool
deriving DecidableEq

/-- Sort key for finalization: fusion score descending, then technical score
descending, then symbol ascending (lexicographic on the UTF-8 code points). -/
def rankKey (r : RecResult) : ℚ ×ₗ (ℚ ×ₗ List Char) :=
  toLex (-r.fusion_score, toLex (-r.technical_score, r.symbol.toList))

/-- The finalization ordering on results. -/
def rankLE (a b : RecResult) : Prop := rankKey a ≤ rankKey b

instance : DecidableRel rankLE := fun a b =>
  inferInstanceAs (Decidable (rankKey a ≤ rankKey b))

instance : IsTotal RecResult rankLE := ⟨fun a b => le_total (rankKey a) (rankKey b)⟩

instance : IsTrans RecResult rankLE := ⟨fun _ _ _ h1 h2 => le_trans h1 h2⟩

/-- Modelled from the spec: `rank_and_select_recommendations` (invoked in
the streaming engine design but whose body is not in the repository
snapshot) — sort all results by fusion score descending with the tie-breaks
above, assign dense 1-based ranks, and mark the first `max_count` (default
request value 5) as recommended. -/
def rank_and_select_recommendations (results : List RecResult) (max_count : ℕ) :
    List RankedResult :=
  ((List.insertionSort rankLE results).enumFrom 1).map
    (fun p => ⟨p.2, p.1, decide (p.1 ≤ max_count)⟩)

/-- C3: finalization sorts results by fusion score descending (ties by
technical score descending, then symbol ascending), assigns `rank_in_task`
as exactly the list `1..N` along the sorted order (hence a dense permutation
of `1..N`), and marks exactly the first `k` positions as recommended. -/
theorem rank_and_select_spec (results : List RecResult) (k : ℕ) :
    ((rank_and_select_recommendations results k).map RankedResult.rank_in_task
      = List.range' 1 results.length) ∧
    List.Sorted rankLE ((rank_and_select_recommendations results k).map RankedResult.core) ∧
    ((rank_and_select_recommendations results k).map RankedResult.core).Perm results ∧
    (∀ a b, rankLE a b ↔
      (b.fusion_score < a.fusion_score ∨
        (b.fusion_score = a.fusion_score ∧
          (b.technical_score < a.technical_score ∨
            (b.technical_score = a.technical_score ∧ a.symbol ≤ b.symbol))))) ∧
    (∀ i (h : i < (rank_and_select_recommendations results k).length),
      ((rank_and_select_recommendations results k).get ⟨i, h⟩).is_recommended
        = decide (i < k)) := by
  have hmapcore :
      (rank_and_select_recommendations results k).map RankedResult.core
        = List.insertionSort rankLE results := by
    unfold rank_and_select_recommendations
    rw [List.map_map]
    exact List.enumFrom_map_snd 1 _
  refine ⟨?_, ?_, ?_, ?_, ?_⟩
  · unfold rank_and_select_recommendations
    rw [List.map_map]
    have := List.enumFrom_map_fst 1 (List.insertionSort rankLE results)
    rw [List.length_insertionSort] at this
    exact this
  · rw [hmapcore]
    exact List.sorted_insertionSort rankLE results
  · rw [hmapcore]
    exact List.perm_insertionSort rankLE results
  · intro a b
    unfold rankLE rankKey
    rw [Prod.Lex.le_iff, Prod.Lex.le_iff]
    simp only [neg_lt_neg_iff, neg_inj]
    rw [String.le_iff_toList_le]
    constructor
    · rintro (h | ⟨he, h2 | ⟨ht, hs⟩⟩)
      · exact Or.inl h
      · exact Or.inr ⟨he.symm, Or.inl h2⟩
      · exact Or.inr ⟨he.symm, Or.inr ⟨ht.symm, hs⟩⟩
    · rintro (h | ⟨he, h2 | ⟨ht, hs⟩⟩)
      · exact Or.inl h
      · exact Or.inr ⟨he.symm, Or.inl h2⟩
      · exact Or.inr ⟨he.symm, Or.inr ⟨ht.symm, hs⟩⟩
  · intro i h
    unfold rank_and_select_recommendations at h ⊢
    rw [List.get_eq_getElem, List.getElem_map, List.getElem_enumFrom]
    simp only
    rw [decide_eq_decide]
    omega

/-- Concrete instantiation of the recommendation-cutoff conjunct of
`rank_and_select_spec` on a one-element result list with the default
`max_count = 5`. -/
theorem rank_and_select_spec_witness :
    ((rank_and_select_recommendations [⟨"B", 6, 6⟩] 5).get ⟨0, by decide⟩).is_recommended
      = decide (0 < 5) :=
  (rank_and_select_spec [⟨"B", 6, 6⟩] 5).2.2.2.2 0 (by decide)

/-! ## Explicit-symbols task processing (spec §4.1/§4.2/§7) -/

/-- Final state of a task as far as the end-to-end claim observes it. -/
structure TaskFinal where
  status : String
  successful_count : ℕ
  failed_count : ℕ
  results : List RankedResult
deriving DecidableEq

/-- Modelled from the spec: the per-symbol unit of the explicit-symbols loop
(`process_ai_recommendation` in the streaming engine design; the executable
body is not in the repository snapshot).  `fetch` abstracts the external
data-fetch plus AI-streaming collaborators: `none` is a data-fetch failure
(`DataUnavailable`), `some (tech, aiText)` is a successful analysis with
technical score `tech` and final AI text `aiText`.  A fetch failure is
recorded as a failure count and the loop continues; a success parses the AI
confidence out of the text and fuses it with the technical score. -/
def symbolStep (alpha : ℚ) (fetch : String → Option (ℚ × String))
    (acc : ℕ × ℕ × List RecResult) (sym : String) : ℕ × ℕ × List RecResult :=
  match fetch sym with
  | none => (acc.1, acc.2.1 + 1, acc.2.2)
  | some (tech, aiText) =>
    (acc.1 + 1, acc.2.1,
      acc.2.2 ++ [⟨sym, tech,
        (compute_fusion_score (some tech) (parse_ai_confidence aiText) alpha).getD 0⟩])

/-- Modelled from the spec: run an explicit-symbols task over `symbols`,
absorbing per-symbol failures into the failure counter, then finalize:
rank the collected results and mark the task `completed`. -/
def process_ai_recommendation (alpha : ℚ) (fetch : String → Option (ℚ × String))
    (symbols : List String) (max_count : ℕ) : TaskFinal :=
  ⟨"completed",
   (symbols.foldl (symbolStep alpha fetch) (0, 0, [])).1,
   (symbols.foldl (symbolStep alpha fetch) (0, 0, [])).2.1,
   rank_and_select_recommendations
     ((symbols.foldl (symbolStep alpha fetch) (0, 0, [])).2.2) max_count⟩

theorem symbolStep_counts (alpha : ℚ) (fetch : String → Option (ℚ × String))
    (symbols : List String) :
    ∀ acc : ℕ × ℕ × List RecResult,
      (symbols.foldl (symbolStep alpha fetch) acc).1
          + (symbols.foldl (symbolStep alpha fetch) acc).2.1
        = acc.1 + acc.2.1 + symbols.length := by
  induction symbols with
  | nil =>
    intro acc
    simp
  | cons s rest ih =>
    intro acc
    rw [List.foldl_cons, ih (symbolStep alpha fetch acc s)]
    unfold symbolStep
    cases h : fetch s with
    | none =>
      simp only [List.length_cons]
      omega
    | some p =>
      cases p with
      | mk tech aiText =>
        simp only [List.length_cons]
        omega

/-- The fetch behaviour of the C4 scenario: symbol A's data fetch fails,
symbol B succeeds with technical score 6.0 and AI text containing no
parsable confidence. -/
def demoFetch (sym : String) : Option (ℚ × String) :=
  if sym = "A" then none else some (6, "the model gave no numeric answer")

/-- C4: a single symbol's failure never aborts the task or its sibling
symbols — the task always ends `completed` with the success and failure
counters summing to the number of symbols; in the concrete `["A","B"]`
scenario with A failing and B scoring 6.0 with no parsable AI confidence,
the task ends `completed` with `failed_count = 1`, `successful_count = 1`
and exactly one result, for B, with fusion score 6, rank 1 and the
recommended flag set. -/
theorem explicit_task_failure_isolated :
    (∀ alpha fetch symbols k,
      (process_ai_recommendation alpha fetch symbols k).status = "completed" ∧
      (process_ai_recommendation alpha fetch symbols k).successful_count
          + (process_ai_recommendation alpha fetch symbols k).failed_count
        = symbols.length) ∧
    process_ai_recommendation CONF_FUSION_ALPHA demoFetch ["A", "B"] 5
      = ⟨"completed", 1, 1, [⟨⟨"B", 6, 6⟩, 1, true⟩]⟩ := by
  constructor
  · intro alpha fetch symbols k
    refine ⟨rfl, ?_⟩
    have := symbolStep_counts alpha fetch symbols (0, 0, [])
    simpa using this
  · have hparse : parse_ai_confidence "the model gave no numeric answer" = none := by
      unfold parse_ai_confidence
      rw [show scanConfidence "the model gave no numeric answer".toList = none by decide]
      rfl
    have hfuse : compute_fusion_score (some 6) none CONF_FUSION_ALPHA = some 6 := by
      show some (round2 6) = some 6
      rw [round2_ofInt 6 600 (by norm_num)]
      norm_num
    have hstep1 : symbolStep CONF_FUSION_ALPHA demoFetch (0, 0, []) "A" = (0, 1, []) := by
      unfold symbolStep demoFetch
      simp
    have hstep2 : symbolStep CONF_FUSION_ALPHA demoFetch (0, 1, []) "B"
        = (1, 1, [⟨"B", 6, 6⟩]) := by
      unfold symbolStep demoFetch
      simp [hparse, hfuse]
    have hfold : List.foldl (symbolStep CONF_FUSION_ALPHA demoFetch) (0, 0, []) ["A", "B"]
        = (1, 1, [⟨"B", 6, 6⟩]) := by
      rw [List.foldl_cons, hstep1, List.foldl_cons, hstep2, List.foldl_nil]
    have hrank : rank_and_select_recommendations [⟨"B", 6, 6⟩] 5
        = [⟨⟨"B", 6, 6⟩, 1, true⟩] := by
      unfold rank_and_select_recommendations
      rfl
    unfold process_ai_recommendation
    rw [hfold, hrank]

/-! ## Keyword-task progress reporting (`process_keyword_recommendation`) -/

/-- One `(current_phase, progress_percent)` state of a running keyword task,
as published to observers. -/
structure ProgressSnapshot where
  phase : String
  percent : ℚ
deriving DecidableEq

/-- The sequence of `(phase, percent)` states produced by
`process_keyword_recommendation` for a task whose screening step returned
`n` candidates: the phase is set to `screening` (progress still at its
initial 0), then to `analyzing`, and after the `i`-th analyzed candidate the
progress is updated to `(i+1)/n*100` — the analyze loop spans the whole
0–100 range, with no 50/50 split between the phases. -/
def keyword_progress_trace (n : ℕ) : List ProgressSnapshot :=
  ⟨"screening", 0⟩ :: ⟨"analyzing", 0⟩ ::
    (List.range n).map (fun (i : ℕ) => ⟨"analyzing", ((i : ℚ) + 1) / (n : ℚ) * 100⟩)

theorem keyword_trace_3_mem :
    ProgressSnapshot.mk "analyzing" (100 / 3) ∈ keyword_progress_trace 3 := by
  unfold keyword_progress_trace
  refine List.mem_cons_of_mem _ (List.mem_cons_of_mem _ ?_)
  refine List.mem_map.mpr ⟨0, by decide, ?_⟩
  simp only [ProgressSnapshot.mk.injEq, true_and]
  push_cast
  norm_num

/-- C5 counterexample: for a keyword task with 3 candidates the state after
the first analyzed candidate is in the `analyzing` phase with progress
100/3 < 50, refuting the claim that progress during the analyze phase lies
in the range 50 to 100. -/
theorem keyword_progress_counterexample :
    ProgressSnapshot.mk "analyzing" (100 / 3) ∈ keyword_progress_trace 3 ∧
    ¬ (50 : ℚ) ≤ 100 / 3 :=
  ⟨keyword_trace_3_mem, by norm_num⟩

/-- C5 (amended): for a keyword-screen task, the progress percent is 0
throughout the `screening` phase, every snapshot lies in `[0, 100]`, and any
strictly positive progress implies the task is already in the `analyzing`
phase (so screening has finished) — but the analyze phase spans 0–100, not
50–100. -/
theorem keyword_progress_spec (n : ℕ) (snap : ProgressSnapshot)
    (h : snap ∈ keyword_progress_trace n) :
    (snap.phase = "screening" → snap.percent = 0) ∧
    (0 < snap.percent → snap.phase = "analyzing") ∧
    0 ≤ snap.percent ∧ snap.percent ≤ 100 := by
  unfold keyword_progress_trace at h
  rcases List.mem_cons.mp h with h1 | h1
  · subst h1
    exact ⟨fun _ => rfl, fun hx => absurd hx (by norm_num), by norm_num, by norm_num⟩
  · rcases List.mem_cons.mp h1 with h2 | h2
    · subst h2
      exact ⟨fun _ => rfl, fun _ => rfl, by norm_num, by norm_num⟩
    · rcases List.mem_map.mp h2 with ⟨i, hi, hmk⟩
      subst hmk
      have hin : i < n := List.mem_range.mp hi
      have hn : (0 : ℚ) < (n : ℚ) := by
        have hpos : 0 < n := by omega
        exact_mod_cast hpos
      refine ⟨fun hq => absurd hq (by simp), fun _ => rfl, ?_, ?_⟩
      · positivity
      · have hle : ((i : ℚ) + 1) ≤ (n : ℚ) := by
          exact_mod_cast Nat.succ_le_of_lt hin
        rw [div_mul_eq_mul_div, div_le_iff₀ hn]
        nlinarith

/-- Concrete instantiation of `keyword_progress_spec` at the `n = 3`
analyze-phase snapshot `100/3`. -/
theorem keyword_progress_spec_witness :
    ((ProgressSnapshot.mk "analyzing" (100 / 3)).phase = "screening" →
      (ProgressSnapshot.mk "analyzing" (100 / 3)).percent = 0) ∧
    (0 < (ProgressSnapshot.mk "analyzing" (100 / 3)).percent →
      (ProgressSnapshot.mk "analyzing" (100 / 3)).phase = "analyzing") ∧
    0 ≤ (ProgressSnapshot.mk "analyzing" (100 / 3)).percent ∧
    (ProgressSnapshot.mk "analyzing" (100 / 3)).percent ≤ 100 :=
  keyword_progress_spec 3 (ProgressSnapshot.mk "analyzing" (100 / 3)) keyword_trace_3_mem

/-! ## Task lifecycle state machine (spec §3, §4.1) -/

/-- The lifecycle-relevant part of a `recommendation_tasks` row. -/
structure TaskState where
  status : String
  completedSymbols : ℕ
  totalSymbols : ℕ
deriving DecidableEq

/-- The terminal statuses of a task. -/
def terminalStatus (s : String) : Bool :=
  s = "completed" ∨ s = "cancelled" ∨ s = "failed"

/-- The state-transition operations owned by the task orchestrator. -/
inductive TaskOp
  | start
  | symbolDone
  | complete
  | fail
  | cancel
  | retry
deriving DecidableEq

/-- Modelled from the spec: the orchestrator's state-transition methods
(spec §3/§4.1; the task-manager sources are not in the repository
snapshot).  Each method checks the current status and is a no-op
(`InvalidState`) when its guard fails: `start` moves `pending` to
`running`; `symbolDone` counts one terminal per-symbol outcome while
running; `complete`/`fail` close a running task; `cancel` closes a pending
or running task; `retry`, valid only on `failed`/`cancelled`, clears the
counters and re-enters `pending` (a fresh lifecycle on the same row). -/
def applyOp (s : TaskState) (op : TaskOp) : TaskState :=
  match op with
  | .start => if s.status = "pending" then { s with status := "running" } else s
  | .symbolDone =>
    if s.status = "running" ∧ s.completedSymbols < s.totalSymbols
    then { s with completedSymbols := s.completedSymbols + 1 } else s
  | .complete => if s.status = "running" then { s with status := "completed" } else s
  | .fail =>
    if s.status = "pending" ∨ s.status = "running" then { s with status := "failed" } else s
  | .cancel =>
    if s.status = "pending" ∨ s.status = "running" then { s with status := "cancelled" } else s
  | .retry =>
    if s.status = "failed" ∨ s.status = "cancelled"
    then { s with status := "pending", completedSymbols := 0 } else s

/-- The event log of task states: the freshly created `pending` task
followed by the state after each operation. -/
def taskTrace (total : ℕ) (ops : List TaskOp) : List TaskState :=
  ops.scanl applyOp ⟨"pending", 0, total⟩

theorem applyOp_total_eq (s : TaskState) (op : TaskOp) :
    (applyOp s op).totalSymbols = s.totalSymbols := by
  cases op <;> simp only [applyOp] <;> split <;> rfl

theorem applyOp_completed_le (s : TaskState) (op : TaskOp)
    (h : s.completedSymbols ≤ s.totalSymbols) :
    (applyOp s op).completedSymbols ≤ (applyOp s op).totalSymbols := by
  cases op <;> simp only [applyOp] <;> split <;> ((try simp_all); (try omega))

theorem applyOp_completed_mono (s : TaskState) (op : TaskOp) (h : op ≠ .retry) :
    s.completedSymbols ≤ (applyOp s op).completedSymbols := by
  cases op <;> simp only [applyOp] <;> first
    | exact absurd rfl h
    | split <;> simp

theorem scanl_invariant {α β : Type} (f : β → α → β) (P : β → Prop)
    (hP : ∀ b a, P b → P (f b a)) :
    ∀ (l : List α) (b : β), P b → ∀ x ∈ l.scanl f b, P x := by
  intro l
  induction l with
  | nil =>
    intro b hb x hx
    rw [List.scanl_nil] at hx
    rcases List.mem_singleton.mp hx with rfl
    exact hb
  | cons a rest ih =>
    intro b hb x hx
    rw [List.scanl_cons] at hx
    rcases List.mem_cons.mp hx with rfl | hx'
    · exact hb
    · exact ih (f b a) (hP b a hb) x hx'

theorem scanl_chain {α β : Type} (f : β → α → β) (R : β → β → Prop) :
    ∀ (l : List α) (b : β), (∀ b' a, a ∈ l → R b' (f b' a)) →
      List.Chain' R (l.scanl f b) := by
  intro l
  induction l with
  | nil =>
    intro b _
    simp [List.scanl_nil]
  | cons a rest ih =>
    intro b hR
    rw [List.scanl_cons]
    refine List.chain'_cons'.mpr
      ⟨?_, ih (f b a) (fun b' a' ha' => hR b' a' (List.mem_cons_of_mem a ha'))⟩
    intro y hy
    have hh : (rest.scanl f (f b a)).head? = some (f b a) := by
      cases rest <;> simp [List.scanl_cons, List.scanl_nil]
    have hy' : y ∈ (rest.scanl f (f b a)).head? := hy
    rw [hh] at hy'
    rcases Option.some.inj hy' with rfl
    exact hR b a (List.mem_cons_self a rest)

/-- C7: along every event log, `completedSymbols` never exceeds
`totalSymbols`; within a lifecycle (no retry among the operations) it is
monotonically non-decreasing; and from a terminal status no operation ever
reaches `running` and only an explicit `retry` changes the status at all. -/
theorem task_lifecycle_invariants (total : ℕ) (ops : List TaskOp) :
    (∀ s ∈ taskTrace total ops, s.completedSymbols ≤ s.totalSymbols) ∧
    (TaskOp.retry ∉ ops →
      List.Chain' (fun a b => a.completedSymbols ≤ b.completedSymbols)
        (taskTrace total ops)) ∧
    (∀ s op, terminalStatus s.status = true → (applyOp s op).status ≠ "running") ∧
    (∀ s op, terminalStatus s.status = true → (applyOp s op).status ≠ s.status →
      op = TaskOp.retry) := by
  refine ⟨?_, ?_, ?_, ?_⟩
  · exact scanl_invariant applyOp (fun s => s.completedSymbols ≤ s.totalSymbols)
      (fun s op h => applyOp_completed_le s op h) ops ⟨"pending", 0, total⟩
      (by simp)
  · intro hret
    unfold taskTrace
    exact scanl_chain applyOp _ ops _
      (fun b op hop => applyOp_completed_mono b op (fun he => hret (he ▸ hop)))
  · intro s op hterm
    have h3 : s.status = "completed" ∨ s.status = "cancelled" ∨ s.status = "failed" := by
      simpa [terminalStatus] using hterm
    cases op <;> simp only [applyOp] <;> split <;> simp_all <;>
      rcases h3 with h | h | h <;> simp_all
  · intro s op hterm hch
    have h3 : s.status = "completed" ∨ s.status = "cancelled" ∨ s.status = "failed" := by
      simpa [terminalStatus] using hterm
    cases op
    case retry => rfl
    all_goals
      exfalso
      apply hch
      simp only [applyOp]
      split <;> first
        | rfl
        | (rcases h3 with h | h | h <;> simp_all)

/-- Concrete instantiation of the hypotheses of
`task_lifecycle_invariants`: the freshly created state of a 2-symbol task,
a retry-free operation list, a `start` issued against a `completed` task
and a `retry` issued against a `failed` task. -/
theorem task_lifecycle_invariants_witness :
    (TaskState.mk "pending" 0 2).completedSymbols
        ≤ (TaskState.mk "pending" 0 2).totalSymbols ∧
    List.Chain' (fun a b => a.completedSymbols ≤ b.completedSymbols)
      (taskTrace 2 [TaskOp.start, TaskOp.symbolDone]) ∧
    (applyOp ⟨"completed", 2, 2⟩ TaskOp.start).status ≠ "running" ∧
    TaskOp.retry = TaskOp.retry :=
  ⟨(task_lifecycle_invariants 2 [TaskOp.start]).1 ⟨"pending", 0, 2⟩ (by decide),
   (task_lifecycle_invariants 2 [TaskOp.start, TaskOp.symbolDone]).2.1 (by decide),
   (task_lifecycle_invariants 2 []).2.2.1 ⟨"completed", 2, 2⟩ TaskOp.start (by decide),
   (task_lifecycle_invariants 2 []).2.2.2 ⟨"failed", 1, 2⟩ TaskOp.retry (by decide) (by decide)⟩

/-! ## Symbol-list parsing in the streaming recommendation form
(`StreamingRecommendForm.onFinish`) -/

/-- The whitespace characters of the JavaScript `\s` character class. -/
def jsWhitespace (c : Char) : Bool :=
  c = ' ' ∨ c = '\t' ∨ c = '\n' ∨ c = '\r' ∨ c = '\u000B' ∨ c = '\u000C' ∨
  c = '\u00A0' ∨ c = '\u1680' ∨ (0x2000 ≤ c.toNat ∧ c.toNat ≤ 0x200A) ∨
  c = '\u2028' ∨ c = '\u2029' ∨ c = '\u202F' ∨ c = '\u205F' ∨ c = '\u3000' ∨ c = '\uFEFF'

/-- The separator class of the form's split regex `[,，\s\n]+`: ASCII and
full-width commas, whitespace and newlines. -/
def isSymbolSep (c : Char) : Bool :=
  c = ',' ∨ c = '，' ∨ jsWhitespace c ∨ c = '\n'

/-- Split a character list at every separator character.  Runs of
separators produce empty pieces, exactly as `String.split` on a regex does;
the caller drops the empty entries afterwards. -/
def splitTokens : List Char → List (List Char)
  | [] => [[]]
  | c :: rest =>
    if isSymbolSep c then [] :: splitTokens rest
    else
      match splitTokens rest with
      | [] => [[c]]
      | t :: ts => (c :: t) :: ts

/-- JavaScript `String.prototype.trim`: strip whitespace from both ends. -/
def trimChars (l : List Char) : List Char :=
  ((l.dropWhile jsWhitespace).reverse.dropWhile jsWhitespace).reverse

/-- `values.symbols.split(/[,，\s\n]+/).map(s => s.trim()).filter(s => s.length > 0)`
from `StreamingRecommendForm.onFinish`. -/
def parseSymbolsInput (s : String) : List String :=
  ((((splitTokens s.toList).map trimChars).filter
      (fun t => decide (0 < t.length))).map List.asString)

/-- The submission guard of `onFinish` for the AI (explicit-symbols) form:
when no symbol remains after parsing, an error is reported and no request
is sent (`none`); otherwise the request is issued with the parsed list. -/
def onFinishAI (symbolsText : String) : Option (List String) :=
  if (parseSymbolsInput symbolsText).length = 0 then none
  else some (parseSymbolsInput symbolsText)

theorem splitTokens_ne_nil (l : List Char) : splitTokens l ≠ [] := by
  cases l with
  | nil => simp [splitTokens]
  | cons c rest =>
    simp only [splitTokens]
    split
    · simp
    · cases h : splitTokens rest <;> simp

theorem splitTokens_no_sep (l : List Char) :
    ∀ t ∈ splitTokens l, ∀ c ∈ t, isSymbolSep c = false := by
  induction l with
  | nil =>
    intro t ht c hc
    rcases List.mem_singleton.mp ht with rfl
    simp at hc
  | cons a rest ih =>
    intro t ht c hc
    rw [splitTokens] at ht
    by_cases ha : isSymbolSep a
    · rw [if_pos ha] at ht
      rcases List.mem_cons.mp ht with rfl | ht'
      · simp at hc
      · exact ih t ht' c hc
    · rw [if_neg ha] at ht
      cases hsp : splitTokens rest with
      | nil => exact absurd hsp (splitTokens_ne_nil rest)
      | cons t0 ts =>
        rw [hsp] at ht
        rcases List.mem_cons.mp ht with rfl | ht'
        · rcases List.mem_cons.mp hc with rfl | hc'
          · exact Bool.eq_false_iff.mpr ha
          · exact ih t0 (hsp ▸ List.mem_cons_self t0 ts) c hc'
        · exact ih t (hsp ▸ List.mem_cons_of_mem t0 ht') c hc

theorem trimChars_subset (l : List Char) : ∀ c ∈ trimChars l, c ∈ l := by
  intro c hc
  unfold trimChars at hc
  rw [List.mem_reverse] at hc
  have h1 : c ∈ (l.dropWhile jsWhitespace).reverse :=
    (List.dropWhile_sublist jsWhitespace).mem hc
  rw [List.mem_reverse] at h1
  exact (List.dropWhile_sublist jsWhitespace).mem h1

/-- C9: splitting the symbols text on ASCII/full-width commas, whitespace
and newlines, trimming entries and dropping empty ones; a request is sent
iff at least one non-empty symbol was parsed, every parsed symbol is
non-empty and free of separator characters, and concrete inputs behave as
expected. -/
theorem symbols_split_spec :
    (∀ s, onFinishAI s = none ↔ parseSymbolsInput s = []) ∧
    (∀ s syms, onFinishAI s = some syms → syms = parseSymbolsInput s ∧ syms ≠ []) ∧
    (∀ s t, t ∈ parseSymbolsInput s →
      0 < t.length ∧ ∀ c ∈ t.toList, isSymbolSep c = false) ∧
    parseSymbolsInput "600000, 000001，600519\n000858"
      = ["600000", "000001", "600519", "000858"] ∧
    onFinishAI " ,， \n " = none := by
  refine ⟨?_, ?_, ?_, by decide, by decide⟩
  · intro s
    unfold onFinishAI
    split
    · rename_i hz
      exact iff_of_true rfl (List.length_eq_zero.mp hz)
    · rename_i hz
      refine iff_of_false (by simp) ?_
      intro he
      exact hz (by rw [he]; rfl)
  · intro s syms h
    unfold onFinishAI at h
    split at h
    · exact absurd h (by simp)
    · rename_i hz
      have hsy : parseSymbolsInput s = syms := Option.some.inj h
      refine ⟨hsy.symm, ?_⟩
      intro he
      exact hz (by rw [hsy, he]; rfl)
  · intro s t ht
    unfold parseSymbolsInput at ht
    rcases List.mem_map.mp ht with ⟨tok, htok, rfl⟩
    rcases List.mem_filter.mp htok with ⟨htok2, hlen⟩
    rcases List.mem_map.mp htok2 with ⟨tok0, htok0, rfl⟩
    have hlen' : 0 < (trimChars tok0).length := of_decide_eq_true hlen
    constructor
    · exact hlen'
    · intro c hc
      have hc' : c ∈ trimChars tok0 := hc
      exact splitTokens_no_sep _ tok0 htok0 c (trimChars_subset tok0 c hc')

/-- Concrete instantiation of `symbols_split_spec`: the token `600000`
parsed from a mixed-separator input is non-empty and separator-free. -/
theorem symbols_split_spec_witness :
    0 < ("600000" : String).length ∧
    ∀ c ∈ ("600000" : String).toList, isSymbolSep c = false :=
  symbols_split_spec.2.2.1 "600000, 000001，600519\n000858" "600000" (by decide)

/-! ## Watchlist batch-analysis progress polling (`WatchlistPage.pollBatch`) -/

/-- `Math.max(0, Math.min(100, s.percent))` from the polling loop. -/
def clampPercent (p : ℚ) : ℚ := max 0 (min 100 p)

/-- The sequence of values taken by the `percent` state during one polling
run: it starts at 0 (`setPercent(0)` when the batch starts) and each status
response carrying a numeric `percent` stores the clamped value, while
responses without one leave the state unchanged. -/
def pollBatchPercents (updates : List (Option ℚ)) : List ℚ :=
  updates.scanl
    (fun cur u =>
      match u with
      | some p => clampPercent p
      | none => cur) 0

/-- C10: every stored batch-progress value is the clamp of the polled
percent into `[0, 100]`, so the displayed percentage stays within `[0, 100]`
throughout polling, also for out-of-range inputs such as -5 and 150. -/
theorem poll_batch_percent_spec :
    (∀ p, 0 ≤ clampPercent p ∧ clampPercent p ≤ 100) ∧
    (∀ updates, ∀ x ∈ pollBatchPercents updates, 0 ≤ x ∧ x ≤ 100) ∧
    clampPercent (-5) = 0 ∧ clampPercent 150 = 100 := by
  have hb : ∀ p, 0 ≤ clampPercent p ∧ clampPercent p ≤ 100 := by
    intro p
    unfold clampPercent
    exact ⟨le_max_left _ _, max_le (by norm_num) (min_le_left _ _)⟩
  refine ⟨hb, ?_, ?_, ?_⟩
  · intro updates x hx
    refine scanl_invariant _ (fun q => 0 ≤ q ∧ q ≤ 100) ?_ updates 0 (by norm_num) x hx
    intro q u hq
    cases u with
    | none => exact hq
    | some p => exact hb p
  · unfold clampPercent
    rw [min_eq_right (by norm_num : (-5 : ℚ) ≤ 100), max_eq_left (by norm_num : (-5 : ℚ) ≤ 0)]
  · unfold clampPercent
    rw [min_eq_left (by norm_num : (100 : ℚ) ≤ 150), max_eq_right (by norm_num : (0 : ℚ) ≤ 100)]

/-- Concrete instantiation of `poll_batch_percent_spec`: the initial percent
value 0 of an empty polling run is within bounds. -/
theorem poll_batch_percent_spec_witness : (0 : ℚ) ≤ 0 ∧ (0 : ℚ) ≤ 100 :=
  poll_batch_percent_spec.2.1 [] 0 (List.mem_singleton.mpr rfl)

/-! ## Historical progress rendering (`StreamingProgress`, part_003)

The component loads the stored `task_progress` rows of a non-running task,
sorts them by timestamp ascending, JSON-parses each row's `progress_data`
(falling back to an empty object on invalid JSON), backfills missing
`symbol`/`phase` fields from the row itself, and rebuilds the per-symbol AI
text by replaying the `ai_chunk` events in order, keeping, for each symbol,
the `accumulated` text of the last `ai_chunk` whose data carries a truthy
symbol and a truthy accumulated text. -/

/-- The payload fields of a progress event that the component reads. -/
structure EventData where
  symbol : Option String
  accumulated : Option String
  phase : Option String
deriving DecidableEq

/-- Outcome of `JSON.parse` on the stored `progress_data` string: an object
with the fields above, a string on which `JSON.parse` throws, or valid JSON
that is not an object. -/
inductive RawProgressData
  | obj (d : EventData)
  | badJson
  | nonObj
deriving DecidableEq

/-- One stored `task_progress` row as the component receives it;
`timestamp` is the millisecond value of `new Date(ts).getTime()`. -/
structure ProgressRecord where
  timestamp : ℤ
  event_type : String
  symbol : Option String
  phase : Option String
  progress_data : RawProgressData
deriving DecidableEq

/-- One event in the component's state after conversion. -/
structure UIEvent where
  event : String
  data : EventData
  timestamp : ℤ
deriving DecidableEq

/-- JavaScript truthiness of an optional string field: absent and the empty
string are falsy. -/
def strTruthy : Option String → Bool
  | none => false
  | some s => decide (s ≠ "")

/-- The empty data object `{}` used as the JSON-parse fallback. -/
def emptyData : EventData := ⟨none, none, none⟩

/-- `JSON.parse` with the component's try/catch fallback: invalid JSON and
non-object values are replaced by the empty object. -/
def rawToData : RawProgressData → EventData
  | .obj d => d
  | .badJson => emptyData
  | .nonObj => emptyData

/-- Backfill of missing `symbol`/`phase` fields from the row columns:
`if (!eventData.symbol && progress.symbol) eventData.symbol = progress.symbol`
and likewise for `phase`. -/
def backfill (d : EventData) (r : ProgressRecord) : EventData :=
  let d1 :=
    if strTruthy d.symbol = false ∧ strTruthy r.symbol = true
    then { d with symbol := r.symbol } else d
  if strTruthy d1.phase = false ∧ strTruthy r.phase = true
  then { d1 with phase := r.phase } else d1

/-- Conversion of one stored row into the component's event format. -/
def normalizeRecord (r : ProgressRecord) : UIEvent :=
  ⟨r.event_type, backfill (rawToData r.progress_data) r, r.timestamp⟩

/-- The ascending-timestamp comparator `(a, b) => ta - tb` of the sort. -/
def tsLE (a b : ProgressRecord) : Prop := a.timestamp ≤ b.timestamp

instance : DecidableRel tsLE := fun a b =>
  inferInstanceAs (Decidable (a.timestamp ≤ b.timestamp))

instance : IsTotal ProgressRecord tsLE := ⟨fun a b => le_total a.timestamp b.timestamp⟩

instance : IsTrans ProgressRecord tsLE := ⟨fun _ _ _ => le_trans⟩

/-- The event list the component renders: rows sorted by timestamp
ascending (JavaScript's stable sort), converted one by one. -/
def buildEvents (records : List ProgressRecord) : List UIEvent :=
  (List.insertionSort tsLE records).map normalizeRecord

/-- An `ai_chunk` event whose data carries a truthy symbol and truthy
accumulated text — the condition under which the replay stores AI text. -/
def chunkRelevant (e : UIEvent) : Bool :=
  decide (e.event = "ai_chunk") && strTruthy e.data.symbol && strTruthy e.data.accumulated

/-- Insert-or-replace on the association list modelling the
`{[symbol]: accumulated}` JavaScript object (keys keep insertion order). -/
def upsert : List (String × String) → String → String → List (String × String)
  | [], k, v => [(k, v)]
  | (k0, v0) :: rest, k, v =>
    if k0 = k then (k, v) :: rest else (k0, v0) :: upsert rest k v

/-- One step of the AI-content replay. -/
def aiStep (m : List (String × String)) (e : UIEvent) : List (String × String) :=
  if chunkRelevant e
  then upsert m (e.data.symbol.getD "") (e.data.accumulated.getD "")
  else m

/-- The AI-content map rebuilt from the event list. -/
def buildAiContent (events : List UIEvent) : List (String × String) :=
  events.foldl aiStep []

/-- Lookup in the association list. -/
def alookup : List (String × String) → String → Option String
  | [], _ => none
  | (k0, v0) :: rest, k => if k0 = k then some v0 else alookup rest k

/-- The AI text the component displays for `sym` after loading `records`. -/
def aiContentFor (records : List ProgressRecord) (sym : String) : Option String :=
  alookup (buildAiContent (buildEvents records)) sym

/-- The relevant events for symbol `sym`. -/
def relevantFor (sym : String) (e : UIEvent) : Bool :=
  chunkRelevant e && decide (e.data.symbol = some sym)

/-- The accumulated text of the last relevant event for `sym`, if any,
with a fallback value otherwise. -/
def lastWriteOr (evs : List UIEvent) (sym : String) (fallback : Option String) :
    Option String :=
  match (evs.filter (relevantFor sym)).getLast? with
  | some e => some (e.data.accumulated.getD "")
  | none => fallback

theorem strTruthy_iff (o : Option String) :
    strTruthy o = true ↔ ∃ s, o = some s ∧ s ≠ "" := by
  cases o <;> simp [strTruthy]

theorem alookup_upsert_self (m : List (String × String)) (k v : String) :
    alookup (upsert m k v) k = some v := by
  induction m with
  | nil => simp [upsert, alookup]
  | cons p rest ih =>
    cases p with
    | mk k0 v0 =>
      by_cases h : k0 = k
      · simp [upsert, h, alookup]
      · simp [upsert, h, alookup, ih]

theorem alookup_upsert_ne (m : List (String × String)) (k v k' : String) (h : k' ≠ k) :
    alookup (upsert m k v) k' = alookup m k' := by
  induction m with
  | nil =>
    simp only [upsert, alookup]
    rw [if_neg (fun he => h he.symm)]
  | cons p rest ih =>
    cases p with
    | mk k0 v0 =>
      by_cases hk : k0 = k
      · subst hk
        simp only [upsert, if_pos rfl, alookup]
        rw [if_neg (fun he => h he.symm), if_neg (fun he => h he.symm)]
      · simp only [upsert, if_neg hk, alookup]
        by_cases hk' : k0 = k'
        · rw [if_pos hk', if_pos hk']
        · rw [if_neg hk', if_neg hk', ih]

theorem aiStep_alookup_not_relevant (m : List (String × String)) (e : UIEvent)
    (sym : String) (h : relevantFor sym e = false) :
    alookup (aiStep m e) sym = alookup m sym := by
  unfold aiStep
  by_cases hc : chunkRelevant e = true
  · rw [if_pos hc]
    have hsym : e.data.symbol ≠ some sym := by
      intro he
      have : relevantFor sym e = true := by
        unfold relevantFor
        rw [hc, he]
        simp
      rw [this] at h
      exact absurd h (by decide)
    obtain ⟨s, hs, -⟩ := (strTruthy_iff e.data.symbol).mp (by
      have := hc
      unfold chunkRelevant at this
      rw [Bool.and_eq_true, Bool.and_eq_true] at this
      exact this.1.2)
    rw [hs]
    have hne : (some s : Option String).getD "" ≠ sym := by
      intro he
      apply hsym
      rw [hs]
      simpa [Option.getD] using congrArg some he
    exact alookup_upsert_ne m _ _ sym (fun he => hne he.symm)
  · rw [if_neg hc]

theorem aiStep_alookup_relevant (m : List (String × String)) (e : UIEvent)
    (sym : String) (h : relevantFor sym e = true) :
    alookup (aiStep m e) sym = some (e.data.accumulated.getD "") := by
  unfold relevantFor at h
  rw [Bool.and_eq_true, decide_eq_true_eq] at h
  unfold aiStep
  rw [if_pos h.1, h.2]
  have : (some sym : Option String).getD "" = sym := rfl
  rw [this]
  exact alookup_upsert_self m sym _

theorem alookup_foldl_aiStep (sym : String) :
    ∀ (evs : List UIEvent) (m : List (String × String)),
      alookup (evs.foldl aiStep m) sym = lastWriteOr evs sym (alookup m sym) := by
  intro evs
  induction evs with
  | nil =>
    intro m
    simp [List.foldl_nil, lastWriteOr, List.filter_nil, List.getLast?_nil]
  | cons e rest ih =>
    intro m
    rw [List.foldl_cons, ih (aiStep m e)]
    unfold lastWriteOr
    by_cases hrel : relevantFor sym e = true
    · rw [List.filter_cons_of_pos hrel]
      cases hfl : rest.filter (relevantFor sym) with
      | nil =>
        simp only [List.getLast?_nil, List.getLast?_singleton]
        exact aiStep_alookup_relevant m e sym hrel
      | cons x xs =>
        rw [List.getLast?_cons_cons]
        cases hg : (x :: xs).getLast? with
        | none => simp at hg
        | some y => rfl
    · rw [List.filter_cons_of_neg hrel]
      cases hfl : rest.filter (relevantFor sym) with
      | nil =>
        simp only [List.getLast?_nil]
        exact aiStep_alookup_not_relevant m e sym (by simpa using hrel)
      | cons x xs =>
        rfl

/-- C8 (amended): when rendering a non-running task, the component sorts
the stored rows by timestamp ascending; the AI text shown for a symbol is
the `accumulated` field of the last `ai_chunk` event (in that order) whose
data carries a non-empty symbol equal to that symbol and a non-empty
accumulated text — not of the last `ai_chunk` row outright; and a row whose
`progress_data` string is not valid JSON is rendered exactly as if its data
were the empty object, rather than aborting the render. -/
theorem streaming_progress_spec (records : List ProgressRecord) (sym : String) :
    List.Sorted (fun a b : UIEvent => a.timestamp ≤ b.timestamp) (buildEvents records) ∧
    (buildEvents records).Perm (records.map normalizeRecord) ∧
    aiContentFor records sym = lastWriteOr (buildEvents records) sym none ∧
    (∀ r : ProgressRecord, r.progress_data = RawProgressData.badJson →
      normalizeRecord r
        = normalizeRecord { r with progress_data := RawProgressData.obj emptyData }) := by
  refine ⟨?_, ?_, ?_, ?_⟩
  · unfold buildEvents
    exact List.Pairwise.map normalizeRecord (fun a b hab => hab)
      (List.sorted_insertionSort tsLE records)
  · unfold buildEvents
    exact (List.perm_insertionSort tsLE records).map normalizeRecord
  · unfold aiContentFor buildAiContent
    rw [alookup_foldl_aiStep sym (buildEvents records) []]
    rfl
  · intro r hr
    unfold normalizeRecord
    rw [hr]
    rfl

/-- Concrete rows for the C8 scenario: an `ai_chunk` row with accumulated
text `hello`, followed by an `ai_chunk` row whose `progress_data` is not
valid JSON (hence carries no accumulated text). -/
def rec1 : ProgressRecord :=
  ⟨1, "ai_chunk", some "S", none, RawProgressData.obj ⟨some "S", some "hello", none⟩⟩

/-- The later, JSON-broken `ai_chunk` row of the C8 scenario. -/
def rec2 : ProgressRecord :=
  ⟨2, "ai_chunk", some "S", none, RawProgressData.badJson⟩

/-- C8 counterexample: the AI text shown for `S` is `hello`, although the
last `ai_chunk` record for `S` in timestamp order (the JSON-broken one) has
no `accumulated` field at all — the rendered text is not the accumulated
field of the symbol's last `ai_chunk` record. -/
theorem streaming_progress_counterexample :
    aiContentFor [rec1, rec2] "S" = some "hello" ∧
    (((buildEvents [rec1, rec2]).filter
        (fun e => decide (e.event = "ai_chunk" ∧ e.data.symbol = some "S"))).getLast?).bind
      (fun e => e.data.accumulated) = none ∧
    some "hello" ≠ (none : Option String) := by
  refine ⟨by decide, by decide, by decide⟩

/-- Concrete instantiation of the JSON-fallback conjunct of
`streaming_progress_spec` at the JSON-broken row `rec2`. -/
theorem streaming_progress_spec_witness :
    normalizeRecord rec2
      = normalizeRecord { rec2 with progress_data := RawProgressData.obj emptyData } :=
  (streaming_progress_spec [] "S").2.2.2 rec2 rfl

end Gupiao
